import Mathlib

/-!
Verification of the temple-crowd-prediction data pipeline.

Shallow embedding of the repository's `DataProcessor`, `ProphetModelManager`
and `ExportManager` classes (src/temple-crowd-prediction/src/).  Pandas
floats are modelled as rationals, missing cells as `Option`, dataframes as
lists of rows or association lists of columns, and raising code as `Except`.
The external Prophet library is treated as an oracle: its raw forecast
output is an input to the boundary code under verification.
-/

/-! ## Regressor registration (prophet_model_manager.py, add_regressor) -/

/-- One entry of `ProphetModelManager.regressors`: the dict
`{'name': ..., 'prior_scale': ..., 'standardize': ...}`. -/
structure RegressorConfig where
  name : String
  prior_scale : ℚ
  standardize : Bool
deriving DecidableEq, Repr

/-- `ProphetModelManager.add_regressor` (lines 68-88): append the config
unless a regressor with the same name is already registered, in which case
the call is a warning-logging no-op. -/
def addRegressor (regs : List RegressorConfig) (name : String)
    (priorScale : ℚ) (standardize : Bool) : List RegressorConfig :=
  if regs.any (fun r => r.name = name) then regs
  else regs ++ [⟨name, priorScale, standardize⟩]

/-! ## Prediction clipping (prophet_model_manager.py, make_predictions) -/

/-- One row of the raw forecast frame returned by the external
`Prophet.predict` call: the columns `yhat`, `yhat_lower`, `yhat_upper`. -/
structure RawForecastRow where
  yhat : ℚ
  yhat_lower : ℚ
  yhat_upper : ℚ
deriving DecidableEq, Repr

/-- One row of the post-processed forecast frame: the raw columns are kept
and the integer columns `predicted_visitors`, `lower_bound`, `upper_bound`
are added. -/
structure ForecastRow where
  yhat : ℚ
  yhat_lower : ℚ
  yhat_upper : ℚ
  predicted_visitors : ℤ
  lower_bound : ℤ
  upper_bound : ℤ
deriving DecidableEq, Repr

/-- Rounding of `pandas.Series.round()` (numpy round): round half to even. -/
def roundHalfEven (x : ℚ) : ℤ :=
  let f := ⌊x⌋
  let r := x - (f : ℚ)
  if r < 1/2 then f
  else if 1/2 < r then f + 1
  else if f % 2 = 0 then f else f + 1

/-- `ProphetModelManager.make_predictions` post-processing of one forecast
row (lines 330-340): round `yhat`, `yhat_lower`, `yhat_upper` to integers
and clip each at zero; the raw columns stay in the frame. -/
def makeForecastRow (r : RawForecastRow) : ForecastRow :=
  { yhat := r.yhat
    yhat_lower := r.yhat_lower
    yhat_upper := r.yhat_upper
    predicted_visitors := max 0 (roundHalfEven r.yhat)
    lower_bound := max 0 (roundHalfEven r.yhat_lower)
    upper_bound := max 0 (roundHalfEven r.yhat_upper) }

/-- The column-wise body of `make_predictions` over the whole frame. -/
def makePredictions (rows : List RawForecastRow) : List ForecastRow :=
  rows.map makeForecastRow

/-! ## JSON export (export_manager.py, format_predictions_json) -/

/-- One record of the exported `predictions` array: `predicted_visitors`
and the `confidence_interval` bounds, each a float rounded to two
decimals. -/
structure PredictionRecord where
  predicted_visitors : ℚ
  lower_bound : ℚ
  upper_bound : ℚ
deriving DecidableEq, Repr

/-- Python `round(float(x), 2)`: round half to even at two decimals. -/
def round2 (x : ℚ) : ℚ := (roundHalfEven (x * 100) : ℚ) / 100

/-- `ExportManager.format_predictions_json` record construction
(lines 62-70): each record is built from the raw columns `yhat`,
`yhat_lower`, `yhat_upper` of the predictions frame, rounded to two
decimals — not from the clipped integer columns. -/
def formatPredictionRecord (f : ForecastRow) : PredictionRecord :=
  { predicted_visitors := round2 f.yhat
    lower_bound := round2 f.yhat_lower
    upper_bound := round2 f.yhat_upper }

/-- The `predictions` array of the exported JSON document. -/
def formatPredictionsJson (fs : List ForecastRow) : List PredictionRecord :=
  fs.map formatPredictionRecord

/-! ## Helper lemmas for rounding -/

theorem roundHalfEven_floor_le (x : ℚ) : ⌊x⌋ ≤ roundHalfEven x := by
  unfold roundHalfEven
  dsimp only
  split
  · exact le_refl _
  · split
    · omega
    · split <;> omega

theorem roundHalfEven_le_floor_add_one (x : ℚ) : roundHalfEven x ≤ ⌊x⌋ + 1 := by
  unfold roundHalfEven
  dsimp only
  split
  · omega
  · split
    · omega
    · split <;> omega

theorem roundHalfEven_mono {x y : ℚ} (h : x ≤ y) :
    roundHalfEven x ≤ roundHalfEven y := by
  rcases lt_or_eq_of_le (Int.floor_le_floor h) with hf | hf
  · calc roundHalfEven x ≤ ⌊x⌋ + 1 := roundHalfEven_le_floor_add_one x
      _ ≤ ⌊y⌋ := by omega
      _ ≤ roundHalfEven y := roundHalfEven_floor_le y
  · have hr : x - (⌊x⌋ : ℚ) ≤ y - (⌊x⌋ : ℚ) := by linarith
    unfold roundHalfEven
    dsimp only
    rw [← hf]
    by_cases h1 : x - (⌊x⌋ : ℚ) < 1/2
    · rw [if_pos h1]
      split
      · omega
      · split
        · omega
        · split <;> omega
    · rw [if_neg h1]
      have h1y : ¬ (y - (⌊x⌋ : ℚ) < 1/2) := by
        intro hc; exact h1 (lt_of_le_of_lt hr hc)
      rw [if_neg h1y]
      by_cases h2 : 1/2 < x - (⌊x⌋ : ℚ)
      · rw [if_pos h2]
        have h2y : 1/2 < y - (⌊x⌋ : ℚ) := lt_of_lt_of_le h2 hr
        rw [if_pos h2y]
      · rw [if_neg h2]
        by_cases h3 : 1/2 < y - (⌊x⌋ : ℚ)
        · rw [if_pos h3]
          split <;> omega
        · rw [if_neg h3]

theorem roundHalfEven_intCast (n : ℤ) : roundHalfEven (n : ℚ) = n := by
  unfold roundHalfEven
  dsimp only
  rw [Int.floor_intCast]
  rw [if_pos]
  simp

/-! ## IQR outlier capping (data_processor.py, detect_outliers) -/

/-- Ascending sort of the visitor column, as used by the quantile
computation. -/
def sortQ (xs : List ℚ) : List ℚ := List.insertionSort (· ≤ ·) xs

/-- The interpolation position `q * (n - 1)` used by the default linear
interpolation of `Series.quantile`. -/
def qPos (xs : List ℚ) (q : ℚ) : ℚ := q * ((xs.length : ℚ) - 1)

/-- Index of the lower sample surrounding the interpolation position. -/
def qIdx (xs : List ℚ) (q : ℚ) : ℕ := (⌊qPos xs q⌋).toNat

/-- `Series.quantile(q)` with the default linear interpolation: with
`pos = q * (n - 1)`, `i = floor(pos)` and `g = pos - i`, the result is
`s[i] + g * (s[i+1] - s[i])` on the ascending sorted values `s` (just
`s[i]` when `i` is the last index). -/
def quantile (xs : List ℚ) (q : ℚ) : ℚ :=
  if qIdx xs q + 1 < xs.length then
    (sortQ xs).getD (qIdx xs q) 0
      + (qPos xs q - (qIdx xs q : ℚ))
        * ((sortQ xs).getD (qIdx xs q + 1) 0 - (sortQ xs).getD (qIdx xs q) 0)
  else (sortQ xs).getD (qIdx xs q) 0

/-- The local `Q1` of `detect_outliers`: `visitors.quantile(0.25)`. -/
def iqrQ1 (xs : List ℚ) : ℚ := quantile xs (1/4)

/-- The local `Q3` of `detect_outliers`: `visitors.quantile(0.75)`. -/
def iqrQ3 (xs : List ℚ) : ℚ := quantile xs (3/4)

/-- The local `IQR = Q3 - Q1` of `detect_outliers`. -/
def iqrVal (xs : List ℚ) : ℚ := iqrQ3 xs - iqrQ1 xs

/-- The local `lower_bound = Q1 - 1.5 * IQR` of `detect_outliers`. -/
def iqrLower (xs : List ℚ) : ℚ := iqrQ1 xs - 3/2 * iqrVal xs

/-- The local `upper_bound = Q3 + 1.5 * IQR` of `detect_outliers`. -/
def iqrUpper (xs : List ℚ) : ℚ := iqrQ3 xs + 3/2 * iqrVal xs

/-- The extreme lower threshold `Q1 - 3 * IQR` of `detect_outliers`. -/
def extremeLow (xs : List ℚ) : ℚ := iqrQ1 xs - 3 * iqrVal xs

/-- The extreme upper threshold `Q3 + 3 * IQR` of `detect_outliers`. -/
def extremeHigh (xs : List ℚ) : ℚ := iqrQ3 xs + 3 * iqrVal xs

/-- First `.loc` assignment of `detect_outliers` (line 432): values below
`Q1 - 3*IQR` become `safe_lower_bound = max(0, lower_bound)`. -/
def capLow (xs : List ℚ) (v : ℚ) : ℚ :=
  if v < extremeLow xs then max 0 (iqrLower xs) else v

/-- Second `.loc` assignment of `detect_outliers` (line 433): values above
`Q3 + 3*IQR` become `upper_bound`. -/
def capHigh (xs : List ℚ) (v : ℚ) : ℚ :=
  if extremeHigh xs < v then iqrUpper xs else v

/-- `DataProcessor.detect_outliers` (lines 390-441) restricted to the
visitors column: compute `Q1`, `Q3`, `IQR`; if any value lies outside
`[Q1 - 1.5*IQR, Q3 + 1.5*IQR]` (flag tier) and any value lies outside
`[Q1 - 3*IQR, Q3 + 3*IQR]` (cap tier), first assign
`max(0, Q1 - 1.5*IQR)` to values below `Q1 - 3*IQR`, then — on the
updated values, since the two `.loc` assignments run in sequence on the
mutated frame — assign `Q3 + 1.5*IQR` to values above `Q3 + 3*IQR`. -/
def detectOutliers (xs : List ℚ) : List ℚ :=
  if 0 < (xs.filter (fun v => decide (v < iqrLower xs) || decide (iqrUpper xs < v))).length then
    if 0 < (xs.filter (fun v => decide (v < extremeLow xs) || decide (extremeHigh xs < v))).length then
      (xs.map (capLow xs)).map (capHigh xs)
    else xs
  else xs

/-- The capping behaviour as the claim words it (refinement target, written
from the claim, not from the source): each value below `Q1 - 3*IQR` becomes
`max(0, Q1 - 1.5*IQR)`, each value above `Q3 + 3*IQR` becomes
`Q3 + 1.5*IQR`, and every other value is left unchanged. -/
def detectOutliersClaimed (xs : List ℚ) : List ℚ :=
  xs.map (fun v =>
    if v < extremeLow xs then max 0 (iqrLower xs)
    else if extremeHigh xs < v then iqrUpper xs
    else v)

theorem sortQ_length (xs : List ℚ) : (sortQ xs).length = xs.length :=
  (List.perm_insertionSort _ xs).length_eq

theorem sortQ_getD_mono (xs : List ℚ) {i j : ℕ} (hij : i ≤ j)
    (hj : j < xs.length) : (sortQ xs).getD i 0 ≤ (sortQ xs).getD j 0 := by
  have hs : (sortQ xs).Sorted (· ≤ ·) := List.sorted_insertionSort _ xs
  have hj' : j < (sortQ xs).length := by rw [sortQ_length]; exact hj
  have hi' : i < (sortQ xs).length := lt_of_le_of_lt hij hj'
  rw [List.getD_eq_get _ _ hi', List.getD_eq_get _ _ hj']
  exact hs.rel_get_of_le hij

theorem sortQ_getD_mem (xs : List ℚ) {i : ℕ} (hi : i < xs.length) :
    (sortQ xs).getD i 0 ∈ xs := by
  have hi' : i < (sortQ xs).length := by rw [sortQ_length]; exact hi
  rw [List.getD_eq_getElem _ _ hi']
  exact (List.perm_insertionSort _ xs).mem_iff.mp (List.getElem_mem hi')

theorem qPos_nonneg (xs : List ℚ) (q : ℚ) (hq0 : 0 ≤ q) (hn : xs ≠ []) :
    0 ≤ qPos xs q := by
  have h1 : 1 ≤ xs.length := List.length_pos.mpr hn
  have h1q : (1 : ℚ) ≤ (xs.length : ℚ) := by exact_mod_cast h1
  exact mul_nonneg hq0 (by linarith)

theorem qIdx_cast (xs : List ℚ) (q : ℚ) (hq0 : 0 ≤ q) (hn : xs ≠ []) :
    ((qIdx xs q : ℕ) : ℚ) = ((⌊qPos xs q⌋ : ℤ) : ℚ) := by
  have h0 : 0 ≤ ⌊qPos xs q⌋ := Int.floor_nonneg.mpr (qPos_nonneg xs q hq0 hn)
  unfold qIdx
  exact_mod_cast congrArg Int.cast (Int.toNat_of_nonneg h0)

theorem qIdx_le_pred (xs : List ℚ) (q : ℚ) (hq0 : 0 ≤ q) (hq1 : q ≤ 1)
    (hn : xs ≠ []) : qIdx xs q ≤ xs.length - 1 := by
  have h1 : 1 ≤ xs.length := List.length_pos.mpr hn
  have h1q : (1 : ℚ) ≤ (xs.length : ℚ) := by exact_mod_cast h1
  have hple : qPos xs q ≤ (xs.length : ℚ) - 1 :=
    mul_le_of_le_one_left (by linarith) hq1
  have hcast : ((xs.length : ℚ) - 1) = (((xs.length : ℤ) - 1 : ℤ) : ℚ) := by
    push_cast; ring
  have hfl : ⌊qPos xs q⌋ ≤ (xs.length : ℤ) - 1 := by
    have := Int.floor_mono hple
    rwa [hcast, Int.floor_intCast] at this
  have h0 : 0 ≤ ⌊qPos xs q⌋ := Int.floor_nonneg.mpr (qPos_nonneg xs q hq0 hn)
  unfold qIdx
  omega

theorem qIdx_lt_length (xs : List ℚ) (q : ℚ) (hq0 : 0 ≤ q) (hq1 : q ≤ 1)
    (hn : xs ≠ []) : qIdx xs q < xs.length := by
  have := qIdx_le_pred xs q hq0 hq1 hn
  have h1 : 1 ≤ xs.length := List.length_pos.mpr hn
  omega

theorem qIdx_le_qPos (xs : List ℚ) (q : ℚ) (hq0 : 0 ≤ q) (hn : xs ≠ []) :
    ((qIdx xs q : ℕ) : ℚ) ≤ qPos xs q := by
  rw [qIdx_cast xs q hq0 hn]; exact Int.floor_le _

theorem qPos_lt_qIdx_add_one (xs : List ℚ) (q : ℚ) (hq0 : 0 ≤ q)
    (hn : xs ≠ []) : qPos xs q < ((qIdx xs q : ℕ) : ℚ) + 1 := by
  rw [qIdx_cast xs q hq0 hn]; exact Int.lt_floor_add_one _

theorem getD_qIdx_le_quantile (xs : List ℚ) (q : ℚ) (hq0 : 0 ≤ q)
    (hq1 : q ≤ 1) (hn : xs ≠ []) :
    (sortQ xs).getD (qIdx xs q) 0 ≤ quantile xs q := by
  have hg0 : 0 ≤ qPos xs q - ((qIdx xs q : ℕ) : ℚ) :=
    sub_nonneg.mpr (qIdx_le_qPos xs q hq0 hn)
  unfold quantile
  split
  · rename_i hlt
    have hd : (sortQ xs).getD (qIdx xs q) 0 ≤ (sortQ xs).getD (qIdx xs q + 1) 0 :=
      sortQ_getD_mono xs (Nat.le_succ _) hlt
    nlinarith
  · exact le_refl _

theorem quantile_le_getD (xs : List ℚ) (q : ℚ) (hq0 : 0 ≤ q) (hq1 : q ≤ 1)
    (hn : xs ≠ []) :
    quantile xs q ≤ (sortQ xs).getD (min (qIdx xs q + 1) (xs.length - 1)) 0 := by
  have hg0 : 0 ≤ qPos xs q - ((qIdx xs q : ℕ) : ℚ) :=
    sub_nonneg.mpr (qIdx_le_qPos xs q hq0 hn)
  have hg1 : qPos xs q - ((qIdx xs q : ℕ) : ℚ) < 1 := by
    have := qPos_lt_qIdx_add_one xs q hq0 hn
    linarith
  have hpred := qIdx_le_pred xs q hq0 hq1 hn
  have h1 : 1 ≤ xs.length := List.length_pos.mpr hn
  unfold quantile
  split
  · rename_i hlt
    have hmin : min (qIdx xs q + 1) (xs.length - 1) = qIdx xs q + 1 := by omega
    rw [hmin]
    have hd : (sortQ xs).getD (qIdx xs q) 0 ≤ (sortQ xs).getD (qIdx xs q + 1) 0 :=
      sortQ_getD_mono xs (Nat.le_succ _) hlt
    nlinarith
  · rename_i hge
    have hmin : min (qIdx xs q + 1) (xs.length - 1) = qIdx xs q := by omega
    rw [hmin]

theorem quantile_nonneg (xs : List ℚ) (q : ℚ) (hq0 : 0 ≤ q) (hq1 : q ≤ 1)
    (hn : xs ≠ []) (hpos : ∀ v ∈ xs, 0 ≤ v) : 0 ≤ quantile xs q := by
  have hi : qIdx xs q < xs.length := qIdx_lt_length xs q hq0 hq1 hn
  have hmem : (sortQ xs).getD (qIdx xs q) 0 ∈ xs := sortQ_getD_mem xs hi
  exact le_trans (hpos _ hmem) (getD_qIdx_le_quantile xs q hq0 hq1 hn)

theorem quantile_le_quantile (xs : List ℚ) {q₁ q₂ : ℚ} (hq0 : 0 ≤ q₁)
    (h12 : q₁ ≤ q₂) (hq1 : q₂ ≤ 1) (hn : xs ≠ []) :
    quantile xs q₁ ≤ quantile xs q₂ := by
  have hq20 : 0 ≤ q₂ := le_trans hq0 h12
  have hq11 : q₁ ≤ 1 := le_trans h12 hq1
  have h1 : 1 ≤ xs.length := List.length_pos.mpr hn
  have h1q : (1 : ℚ) ≤ (xs.length : ℚ) := by exact_mod_cast h1
  have hpp : qPos xs q₁ ≤ qPos xs q₂ :=
    mul_le_mul_of_nonneg_right h12 (by linarith)
  have hii : qIdx xs q₁ ≤ qIdx xs q₂ := by
    have hc1 := qIdx_cast xs q₁ hq0 hn
    have hc2 := qIdx_cast xs q₂ hq20 hn
    have hfl := Int.floor_mono hpp
    have h01 : 0 ≤ ⌊qPos xs q₁⌋ := Int.floor_nonneg.mpr (qPos_nonneg xs q₁ hq0 hn)
    unfold qIdx
    omega
  rcases Nat.lt_or_ge (qIdx xs q₁) (qIdx xs q₂) with hlt | hge
  · have h2len := qIdx_lt_length xs q₂ hq20 hq1 hn
    calc quantile xs q₁
        ≤ (sortQ xs).getD (min (qIdx xs q₁ + 1) (xs.length - 1)) 0 :=
          quantile_le_getD xs q₁ hq0 hq11 hn
      _ ≤ (sortQ xs).getD (qIdx xs q₂) 0 := by
          apply sortQ_getD_mono xs _ h2len
          have := qIdx_le_pred xs q₂ hq20 hq1 hn
          omega
      _ ≤ quantile xs q₂ := getD_qIdx_le_quantile xs q₂ hq20 hq1 hn
  · have heq : qIdx xs q₁ = qIdx xs q₂ := le_antisymm hii hge
    have hg12 : qPos xs q₁ - ((qIdx xs q₁ : ℕ) : ℚ)
        ≤ qPos xs q₂ - ((qIdx xs q₂ : ℕ) : ℚ) := by
      rw [← heq]; linarith
    unfold quantile
    rw [← heq]
    split
    · rename_i hlt
      have hd : (sortQ xs).getD (qIdx xs q₁) 0 ≤ (sortQ xs).getD (qIdx xs q₁ + 1) 0 :=
        sortQ_getD_mono xs (Nat.le_succ _) hlt
      nlinarith
    · exact le_refl _

/-- C1 (amended). For every table of non-negative visitor values,
`detect_and_cap_outliers` behaves exactly as the claim describes — values
below `Q1 - 3*IQR` become `max(0, Q1 - 1.5*IQR)`, values above
`Q3 + 3*IQR` become `Q3 + 1.5*IQR`, all other values (including the
merely flagged 1.5*IQR tier) are unchanged — and consequently no result
value is negative or greater than `Q3 + 3*IQR`. -/
theorem detect_outliers_cap_spec (xs : List ℚ) (hpos : ∀ v ∈ xs, 0 ≤ v) :
    detectOutliers xs = detectOutliersClaimed xs ∧
    ∀ v ∈ detectOutliers xs, 0 ≤ v ∧ v ≤ extremeHigh xs := by
  by_cases hn : xs = []
  · subst hn
    refine ⟨rfl, ?_⟩
    intro v hv
    simp [detectOutliers] at hv
  · have h13 : iqrQ1 xs ≤ iqrQ3 xs :=
      quantile_le_quantile xs (by norm_num) (by norm_num) (by norm_num) hn
    have h3 : 0 ≤ iqrQ3 xs :=
      quantile_nonneg xs (3/4) (by norm_num) (by norm_num) hn hpos
    have hIQR : 0 ≤ iqrVal xs := by unfold iqrVal; linarith
    have e1 : extremeLow xs ≤ iqrLower xs := by
      unfold extremeLow iqrLower; linarith
    have e2 : iqrUpper xs ≤ extremeHigh xs := by
      unfold iqrUpper extremeHigh; linarith
    have e3 : iqrLower xs ≤ extremeHigh xs := by
      unfold iqrLower extremeHigh iqrVal at *; linarith
    have e4 : 0 ≤ extremeHigh xs := by
      unfold extremeHigh iqrVal at *; linarith
    have e5 : 0 ≤ iqrUpper xs := by
      unfold iqrUpper iqrVal at *; linarith
    have key : ∀ v, capHigh xs (capLow xs v) =
        (if v < extremeLow xs then max 0 (iqrLower xs)
         else if extremeHigh xs < v then iqrUpper xs else v) := by
      intro v
      unfold capHigh capLow
      by_cases h1 : v < extremeLow xs
      · rw [if_pos h1, if_pos h1, if_neg (not_lt.mpr (max_le e4 e3))]
      · rw [if_neg h1, if_neg h1]
    have heq : detectOutliers xs = detectOutliersClaimed xs := by
      by_cases hext :
          0 < (xs.filter (fun v =>
            decide (v < extremeLow xs) || decide (extremeHigh xs < v))).length
      · have hne : xs.filter (fun v =>
            decide (v < extremeLow xs) || decide (extremeHigh xs < v)) ≠ [] := by
          intro h
          rw [h] at hext
          simp at hext
        obtain ⟨w, hwf⟩ := List.exists_mem_of_ne_nil _ hne
        have hwmem := (List.mem_filter.mp hwf).1
        have hwp := (List.mem_filter.mp hwf).2
        have hout : 0 < (xs.filter (fun v =>
            decide (v < iqrLower xs) || decide (iqrUpper xs < v))).length := by
          apply List.length_pos_of_mem (a := w)
          apply List.mem_filter.mpr
          refine ⟨hwmem, ?_⟩
          simp only [Bool.or_eq_true, decide_eq_true_eq] at hwp ⊢
          rcases hwp with hlo | hhi
          · exact Or.inl (lt_of_lt_of_le hlo e1)
          · exact Or.inr (lt_of_le_of_lt e2 hhi)
        rw [detectOutliers, if_pos hout, if_pos hext, List.map_map,
          detectOutliersClaimed]
        apply List.map_congr_left
        intro v _
        exact key v
      · have hclaimed : detectOutliersClaimed xs = xs := by
          have hnil : xs.filter (fun v =>
              decide (v < extremeLow xs) || decide (extremeHigh xs < v)) = [] := by
            have hz : (xs.filter (fun v =>
                decide (v < extremeLow xs) || decide (extremeHigh xs < v))).length = 0 := by
              omega
            exact List.length_eq_zero.mp hz
          have hall := List.filter_eq_nil_iff.mp hnil
          rw [detectOutliersClaimed]
          have : ∀ v ∈ xs, (if v < extremeLow xs then max 0 (iqrLower xs)
              else if extremeHigh xs < v then iqrUpper xs else v) = v := by
            intro v hv
            have hnp := hall v hv
            simp only [Bool.or_eq_true, decide_eq_true_eq, not_or] at hnp
            rw [if_neg hnp.1, if_neg hnp.2]
          calc xs.map (fun v => if v < extremeLow xs then max 0 (iqrLower xs)
                else if extremeHigh xs < v then iqrUpper xs else v)
              = xs.map id := List.map_congr_left this
            _ = xs := List.map_id xs
        rw [hclaimed, detectOutliers]
        by_cases hout : 0 < (xs.filter (fun v =>
            decide (v < iqrLower xs) || decide (iqrUpper xs < v))).length
        · rw [if_pos hout, if_neg hext]
        · rw [if_neg hout]
    refine ⟨heq, ?_⟩
    intro v hv
    rw [heq, detectOutliersClaimed] at hv
    obtain ⟨w, hwmem, rfl⟩ := List.mem_map.mp hv
    split_ifs with h1 h2
    · exact ⟨le_max_left _ _, max_le e4 e3⟩
    · exact ⟨e5, e2⟩
    · exact ⟨hpos w hwmem, not_lt.mp h2⟩

/-- C1 witness: a concrete non-negative table with one extreme outlier on
each side, on which the capping specification is instantiated. -/
theorem detect_outliers_cap_spec_witness :
    (∀ v ∈ ([0, 10, 10, 10, 100] : List ℚ), 0 ≤ v) ∧
    (detectOutliers [0, 10, 10, 10, 100] =
        detectOutliersClaimed [0, 10, 10, 10, 100] ∧
      ∀ v ∈ detectOutliers [0, 10, 10, 10, 100],
        0 ≤ v ∧ v ≤ extremeHigh [0, 10, 10, 10, 100]) := by
  have hpos : ∀ v ∈ ([0, 10, 10, 10, 100] : List ℚ), 0 ≤ v := by
    simp only [List.forall_mem_cons, List.forall_mem_nil]
    norm_num
  exact ⟨hpos, detect_outliers_cap_spec _ hpos⟩

/-- C1 counterexample: on the all-negative table
`[-1000, -100, -100, -100, -100]` both quartiles are `-100` and `IQR = 0`,
so the claim says `-1000` becomes `max(0, Q1 - 1.5*IQR) = 0`; the code's
second `.loc` assignment, evaluated on the already-capped values, then
recaps that `0` (which exceeds `Q3 + 3*IQR = -100`) down to
`Q3 + 1.5*IQR = -100`, so the claimed per-value description fails. -/
theorem detect_outliers_counterexample :
    detectOutliers [-1000, -100, -100, -100, -100] ≠
      detectOutliersClaimed [-1000, -100, -100, -100, -100] := by
  have hQ1 : iqrQ1 [-1000, -100, -100, -100, -100] = -100 := by
    norm_num [iqrQ1, quantile, qIdx, qPos, sortQ, List.insertionSort,
      List.orderedInsert, List.getD]
  have hQ3 : iqrQ3 [-1000, -100, -100, -100, -100] = -100 := by
    have hidx : qIdx [-1000, -100, -100, -100, -100] (3/4) = 3 := by
      norm_num [qIdx, qPos]
      decide
    rw [iqrQ3, quantile, hidx]
    norm_num [sortQ, List.insertionSort, List.orderedInsert, List.getD]
  have h1 : detectOutliers [-1000, -100, -100, -100, -100] =
      [-100, -100, -100, -100, -100] := by
    norm_num [detectOutliers, capLow, capHigh, iqrLower, iqrUpper,
      extremeLow, extremeHigh, iqrVal, hQ1, hQ3, List.filter]
  have h2 : detectOutliersClaimed [-1000, -100, -100, -100, -100] =
      [0, -100, -100, -100, -100] := by
    norm_num [detectOutliersClaimed, iqrLower, iqrUpper,
      extremeLow, extremeHigh, iqrVal, hQ1, hQ3]
  rw [h1, h2]
  intro h
  have := List.head_eq_of_cons_eq h
  norm_num at this

/-! ## Theorems for prediction clipping and export -/

/-- C2 (amended). Every row produced by `make_predictions` has
non-negative `predicted_visitors`, `lower_bound` and `upper_bound`,
whatever the raw model output; and whenever the raw output additionally
satisfies `yhat_lower ≤ yhat ≤ yhat_upper`, the produced row satisfies
`0 ≤ lower_bound ≤ predicted_visitors ≤ upper_bound` — the ordering
between the clipped columns is inherited from the raw model output, which
the code does not enforce. -/
theorem make_predictions_bounds (rows : List RawForecastRow) :
    (∀ f ∈ makePredictions rows,
      0 ≤ f.predicted_visitors ∧ 0 ≤ f.lower_bound ∧ 0 ≤ f.upper_bound) ∧
    ((∀ r ∈ rows, r.yhat_lower ≤ r.yhat ∧ r.yhat ≤ r.yhat_upper) →
      ∀ f ∈ makePredictions rows,
        0 ≤ f.lower_bound ∧ f.lower_bound ≤ f.predicted_visitors ∧
          f.predicted_visitors ≤ f.upper_bound) := by
  constructor
  · intro f hf
    simp only [makePredictions, List.mem_map] at hf
    obtain ⟨r, hr, rfl⟩ := hf
    simp only [makeForecastRow]
    exact ⟨le_max_left _ _, le_max_left _ _, le_max_left _ _⟩
  · intro hord f hf
    simp only [makePredictions, List.mem_map] at hf
    obtain ⟨r, hr, rfl⟩ := hf
    simp only [makeForecastRow]
    refine ⟨le_max_left _ _, ?_, ?_⟩
    · exact max_le_max (le_refl 0) (roundHalfEven_mono (hord r hr).1)
    · exact max_le_max (le_refl 0) (roundHalfEven_mono (hord r hr).2)

/-- C2 witness: a concrete ordered raw forecast row through the clipping
boundary, instantiating both the unconditional non-negativity part and
the conditional ordering part. -/
theorem make_predictions_bounds_witness :
    (∀ f ∈ makePredictions [⟨5, 2, 9⟩],
      0 ≤ f.predicted_visitors ∧ 0 ≤ f.lower_bound ∧ 0 ≤ f.upper_bound) ∧
    ∀ f ∈ makePredictions [⟨5, 2, 9⟩],
      0 ≤ f.lower_bound ∧ f.lower_bound ≤ f.predicted_visitors ∧
        f.predicted_visitors ≤ f.upper_bound := by
  have h := make_predictions_bounds [⟨5, 2, 9⟩]
  refine ⟨h.1, h.2 ?_⟩
  simp only [List.forall_mem_cons, List.forall_mem_nil]
  norm_num

/-- C2 counterexample: the code never reorders the three columns, so a raw
model row with `yhat = 0` below `yhat_lower = 10` yields an output row with
`lower_bound = 10 > predicted_visitors = 0`, refuting the claim that every
produced row satisfies `lower_bound ≤ predicted_value` for every model
output. -/
theorem make_predictions_counterexample :
    ¬ ((makeForecastRow ⟨0, 10, 20⟩).lower_bound ≤
        (makeForecastRow ⟨0, 10, 20⟩).predicted_visitors) := by
  have h0 : roundHalfEven (0 : ℚ) = 0 := by
    have := roundHalfEven_intCast 0
    simpa using this
  have h10 : roundHalfEven (10 : ℚ) = 10 := by
    have := roundHalfEven_intCast 10
    simpa using this
  simp only [makeForecastRow, h0, h10]
  norm_num

/-- C10. The exported JSON record of a forecast row is computed from the
raw `yhat`, `yhat_lower`, `yhat_upper` columns rounded to two decimals,
not from the clipped integer columns; in particular a model emission at or
below `-0.01` is exported negative even though the in-memory clipped
`predicted_visitors` column is `0`. -/
theorem format_predictions_uses_raw (r : RawForecastRow) :
    (formatPredictionRecord (makeForecastRow r)).predicted_visitors = round2 r.yhat ∧
    (formatPredictionRecord (makeForecastRow r)).lower_bound = round2 r.yhat_lower ∧
    (formatPredictionRecord (makeForecastRow r)).upper_bound = round2 r.yhat_upper ∧
    (r.yhat < 0 → (makeForecastRow r).predicted_visitors = 0) ∧
    (r.yhat ≤ -(1/100) →
      (formatPredictionRecord (makeForecastRow r)).predicted_visitors < 0) := by
  refine ⟨rfl, rfl, rfl, ?_, ?_⟩
  · intro h
    simp only [makeForecastRow]
    have h0 : roundHalfEven (0 : ℚ) = 0 := by
      have := roundHalfEven_intCast 0
      simpa using this
    have hle : roundHalfEven r.yhat ≤ 0 := by
      have := roundHalfEven_mono (le_of_lt h)
      rwa [h0] at this
    exact max_eq_left hle
  · intro h
    show round2 (makeForecastRow r).yhat < 0
    have hyhat : (makeForecastRow r).yhat = r.yhat := rfl
    rw [hyhat]
    unfold round2
    have h100 : r.yhat * 100 ≤ ((-1 : ℤ) : ℚ) := by push_cast; linarith
    have hfl := roundHalfEven_mono h100
    rw [roundHalfEven_intCast] at hfl
    have hc : ((roundHalfEven (r.yhat * 100) : ℤ) : ℚ) ≤ -1 := by exact_mod_cast hfl
    apply div_neg_of_neg_of_pos
    · linarith
    · norm_num

/-- C10 witness: the raw model emission `-5.25` is exported as a negative
value while the in-memory clipped column is zero. -/
theorem format_predictions_uses_raw_witness :
    (formatPredictionRecord (makeForecastRow ⟨-(21/4), -6, -5⟩)).predicted_visitors < 0 ∧
    (makeForecastRow (⟨-(21/4), -6, -5⟩ : RawForecastRow)).predicted_visitors = 0 := by
  have h := format_predictions_uses_raw ⟨-(21/4), -6, -5⟩
  exact ⟨h.2.2.2.2 (by norm_num), h.2.2.2.1 (by norm_num)⟩

/-! ## Theorems for regressor registration -/

theorem addRegressor_noop (regs : List RegressorConfig) (n : String)
    (p : ℚ) (s : Bool) (h : regs.any (fun r => r.name = n) = true) :
    addRegressor regs n p s = regs := by
  unfold addRegressor
  rw [if_pos h]

theorem addRegressor_any (regs : List RegressorConfig) (n : String)
    (p : ℚ) (s : Bool) :
    (addRegressor regs n p s).any (fun r => r.name = n) = true := by
  unfold addRegressor
  by_cases h : regs.any (fun r => r.name = n) = true
  · rw [if_pos h]; exact h
  · rw [if_neg h]; simp

/-- C8. `register_regressor` is idempotent: a second registration under the
same name, whatever its parameters, is a no-op, and starting from a state
without the name, the registered list ends up with exactly one regressor of
that name carrying the first call's configuration. -/
theorem add_regressor_idempotent (regs : List RegressorConfig) (n : String)
    (p₁ p₂ : ℚ) (s₁ s₂ : Bool) :
    addRegressor (addRegressor regs n p₁ s₁) n p₂ s₂ = addRegressor regs n p₁ s₁ ∧
    (regs.filter (fun r => r.name = n) = [] →
      (addRegressor (addRegressor regs n p₁ s₁) n p₂ s₂).filter
          (fun r => r.name = n) = [⟨n, p₁, s₁⟩]) := by
  have hfix := addRegressor_noop (addRegressor regs n p₁ s₁) n p₂ s₂
    (addRegressor_any regs n p₁ s₁)
  refine ⟨hfix, ?_⟩
  intro hnone
  rw [hfix]
  have hany : regs.any (fun r => r.name = n) = false := by
    rw [List.any_eq_false]
    intro r hr
    have := List.filter_eq_nil_iff.mp hnone r hr
    simpa using this
  unfold addRegressor
  rw [if_neg (by rw [hany]; exact Bool.false_ne_true)]
  rw [List.filter_append, hnone]
  simp

/-- C8 witness: registering `festival_flag` twice with different
parameters from the empty registry. -/
theorem add_regressor_idempotent_witness :
    addRegressor (addRegressor [] "festival_flag" 15 true) "festival_flag" 3 false
        = addRegressor [] "festival_flag" 15 true ∧
    (addRegressor (addRegressor [] "festival_flag" 15 true) "festival_flag" 3 false).filter
        (fun r => r.name = "festival_flag") = [⟨"festival_flag", 15, true⟩] := by
  have h := add_regressor_idempotent [] "festival_flag" 15 3 true false
  exact ⟨h.1, h.2 rfl⟩

/-! ## Date parsing fallback chain (data_processor.py, _parse_datetime)

The seven strptime formats tried in order are indices 0-6
('%Y-%m-%d', '%m/%d/%Y', '%d/%m/%Y', '%Y/%m/%d', '%m-%d-%Y', '%d-%m-%Y',
'%Y%m%d'); index 7 is pandas' automatic parsing used as last resort.  The
actual string-to-date parsing is the Python/pandas library, treated as an
oracle: each row of the date column is modelled by its parse outcome under
each of the eight parsers. -/

/-- The priority list of the seven explicit formats (line 218-226). -/
def listedFormats : List (Fin 8) := [0, 1, 2, 3, 4, 5, 6]

/-- The `for date_format in date_formats` loop (lines 231-238): try each
format in order, and accept the first whose coerced parse is not all-NaN. -/
def tryFormats (rows : List (Fin 8 → Option ℕ)) : List (Fin 8) → Option (Fin 8)
  | [] => none
  | f :: fs =>
    if rows.any (fun r => (r f).isSome) then some f else tryFormats rows fs

/-- `DataProcessor._parse_datetime` (lines 207-261): accept the first
listed format under which at least one value parses, keeping unparsed
entries as null; otherwise fall back to automatic parsing (index 7); raise
`DataValidationError` only when that too parses nothing. -/
def parseDatetime (rows : List (Fin 8 → Option ℕ)) :
    Except Unit (Fin 8 × List (Option ℕ)) :=
  match tryFormats rows listedFormats with
  | some f => .ok (f, rows.map (fun r => r f))
  | none =>
    if rows.any (fun r => (r (7 : Fin 8)).isSome) then
      .ok (7, rows.map (fun r => r (7 : Fin 8)))
    else .error ()

theorem any_isSome_false_iff (rows : List (Fin 8 → Option ℕ)) (j : Fin 8) :
    rows.any (fun r => (r j).isSome) = false ↔ ∀ r ∈ rows, r j = none := by
  rw [List.any_eq_false]
  constructor
  · intro h r hr
    have hj := h r hr
    cases hc : r j
    · rfl
    · rw [hc] at hj; simp at hj
  · intro h r hr
    rw [h r hr]; simp

theorem tryFormats_none (rows : List (Fin 8 → Option ℕ)) (fs : List (Fin 8)) :
    tryFormats rows fs = none ↔ ∀ f ∈ fs, ∀ r ∈ rows, r f = none := by
  induction fs with
  | nil => simp [tryFormats]
  | cons a fs ih =>
    simp only [tryFormats]
    by_cases ha : rows.any (fun r => (r a).isSome) = true
    · rw [if_pos ha]
      constructor
      · intro h; exact absurd h (by simp)
      · intro h
        obtain ⟨r, hr, hs⟩ := List.any_eq_true.mp ha
        rw [h a (List.mem_cons_self a fs) r hr] at hs
        simp at hs
    · rw [if_neg ha]
      have hfalse : rows.any (fun r => (r a).isSome) = false := by
        revert ha; cases rows.any (fun r => (r a).isSome) <;> simp
      rw [ih, List.forall_mem_cons]
      have := (any_isSome_false_iff rows a).mp hfalse
      constructor
      · intro h; exact ⟨this, h⟩
      · intro h; exact h.2

theorem tryFormats_some_spec (rows : List (Fin 8 → Option ℕ)) :
    ∀ fs : List (Fin 8), fs.Pairwise (· < ·) →
      ∀ f, tryFormats rows fs = some f →
        f ∈ fs ∧ (∃ r ∈ rows, (r f).isSome = true) ∧
        ∀ g ∈ fs, g < f → ∀ r ∈ rows, r g = none := by
  intro fs
  induction fs with
  | nil => intro _ f h; simp [tryFormats] at h
  | cons a fs ih =>
    intro hpw f h
    simp only [tryFormats] at h
    by_cases ha : rows.any (fun r => (r a).isSome) = true
    · rw [if_pos ha] at h
      have haf : a = f := by injection h
      subst haf
      refine ⟨List.mem_cons_self a fs, ?_, ?_⟩
      · obtain ⟨r, hr, hs⟩ := List.any_eq_true.mp ha
        exact ⟨r, hr, hs⟩
      · intro g hg hgf
        rcases List.mem_cons.mp hg with rfl | hg'
        · exact absurd hgf (lt_irrefl _)
        · have := (List.pairwise_cons.mp hpw).1 g hg'
          exact absurd hgf (not_lt.mpr (le_of_lt this))
    · rw [if_neg ha] at h
      have hfalse : rows.any (fun r => (r a).isSome) = false := by
        revert ha; cases rows.any (fun r => (r a).isSome) <;> simp
      obtain ⟨hmem, hex, hall⟩ := ih (List.pairwise_cons.mp hpw).2 f h
      refine ⟨List.mem_cons_of_mem _ hmem, hex, ?_⟩
      intro g hg hgf
      rcases List.mem_cons.mp hg with rfl | hg'
      · exact (any_isSome_false_iff rows g).mp hfalse
      · exact hall g hg' hgf

/-- C6. `parse_dates` accepts the first listed format under which at least
one value parses, keeping the per-row parse outcomes (unparsed entries
null) of exactly that format; automatic parsing (index 7) is reached only
when every listed format parses nothing; and the call errors exactly when
no format — the automatic fallback included — parses a single row. -/
theorem parse_datetime_spec (rows : List (Fin 8 → Option ℕ)) :
    (parseDatetime rows = .error () ↔ ∀ f : Fin 8, ∀ r ∈ rows, r f = none) ∧
    (∀ (f : Fin 8) (ps : List (Option ℕ)), parseDatetime rows = .ok (f, ps) →
      ps = rows.map (fun r => r f) ∧ (∃ r ∈ rows, (r f).isSome = true) ∧
      ∀ g : Fin 8, g < f → ∀ r ∈ rows, r g = none) := by
  have haux1 : ∀ g : Fin 8, g < 7 → g ∈ listedFormats := by decide
  have haux2 : ∀ f : Fin 8, f ∈ listedFormats → f < 7 := by decide
  have haux3 : ∀ f : Fin 8, f ∉ listedFormats → f = 7 := by decide
  cases htry : tryFormats rows listedFormats with
  | some f =>
    have hok : parseDatetime rows = .ok (f, rows.map (fun r => r f)) := by
      rw [parseDatetime, htry]
    obtain ⟨hmem, hex, hall⟩ :=
      tryFormats_some_spec rows listedFormats (by decide) f htry
    constructor
    · rw [hok]
      apply iff_of_false
      · simp
      · intro hnone
        obtain ⟨r, hr, hs⟩ := hex
        rw [hnone f r hr] at hs
        simp at hs
    · intro f' ps heq
      rw [hok] at heq
      simp only [Except.ok.injEq, Prod.mk.injEq] at heq
      obtain ⟨hf, hps⟩ := heq
      subst hf
      refine ⟨hps.symm, hex, ?_⟩
      intro g hg
      exact hall g (haux1 g (lt_trans hg (haux2 f hmem))) hg
  | none =>
    have hlistnone : ∀ f ∈ listedFormats, ∀ r ∈ rows, r f = none :=
      (tryFormats_none rows listedFormats).mp htry
    by_cases hauto : rows.any (fun r => (r (7 : Fin 8)).isSome) = true
    · have hok : parseDatetime rows = .ok (7, rows.map (fun r => r (7 : Fin 8))) := by
        rw [parseDatetime, htry]
        simp only [if_pos hauto]
      constructor
      · rw [hok]
        apply iff_of_false
        · simp
        · intro hnone
          obtain ⟨r, hr, hs⟩ := List.any_eq_true.mp hauto
          rw [hnone 7 r hr] at hs
          simp at hs
      · intro f' ps heq
        rw [hok] at heq
        simp only [Except.ok.injEq, Prod.mk.injEq] at heq
        obtain ⟨hf, hps⟩ := heq
        subst hf
        refine ⟨hps.symm, List.any_eq_true.mp hauto, ?_⟩
        intro g hg
        exact hlistnone g (haux1 g hg)
    · have herr : parseDatetime rows = .error () := by
        rw [parseDatetime, htry]
        simp only [if_neg hauto]
      constructor
      · rw [herr]
        apply iff_of_true rfl
        intro f r hr
        by_cases hf : f ∈ listedFormats
        · exact hlistnone f hf r hr
        · have h7 : f = 7 := haux3 f hf
          subst h7
          have hfalse : rows.any (fun r => (r (7 : Fin 8)).isSome) = false := by
            revert hauto
            cases rows.any (fun r => (r (7 : Fin 8)).isSome) <;> simp
          exact (any_isSome_false_iff rows 7).mp hfalse r hr
      · intro f ps heq
        rw [herr] at heq
        exact absurd heq (by simp)

/-- C6 witness: a two-row date column whose first row parses only under
format index 2 (so formats 0 and 1 parse nothing and format 2 is the first
accepted), the second row staying null for later imputation. -/
theorem parse_datetime_spec_witness :
    (∃ r ∈ ([fun f => if f = 2 then some 5 else none, fun _ => none] :
        List (Fin 8 → Option ℕ)), (r (2 : Fin 8)).isSome = true) ∧
    ∀ g : Fin 8, g < 2 →
      ∀ r ∈ ([fun f => if f = 2 then some 5 else none, fun _ => none] :
        List (Fin 8 → Option ℕ)), r g = none := by
  have h := (parse_datetime_spec
    [fun f => if f = 2 then some 5 else none, fun _ => none]).2
    2 [some 5, none] rfl
  exact ⟨h.2.1, h.2.2⟩

/-! ## Data validation (data_processor.py, validate_data) -/

/-- A raw cell of the `festival_flag` column: Python booleans, numbers and
strings (Python's set membership identifies `True == 1` and `False == 0`,
so numeric cells are valid exactly when they equal 0 or 1). -/
inductive FVal where
  | bool (b : Bool)
  | int (n : ℤ)
  | str (s : String)
deriving DecidableEq, Repr

/-- Membership in `valid_bool_values` (line 139): booleans are always
valid, numbers must equal 0 or 1, strings must be one of the fixed truthy
or falsy tokens. -/
def validFestivalToken : FVal → Bool
  | .bool _ => true
  | .int n => decide (n = 0 ∨ n = 1)
  | .str s => decide (s ∈ (["1", "0", "true", "false", "True", "False",
      "yes", "no", "Yes", "No"] : List String))

/-- The columns examined by `validate_data`: `hour` and `visitors` as seen
through `pd.to_numeric(errors='coerce')` (`none` = NaN or unconvertible),
`festival_flag` with NaN cells dropped to `none`, and `weather` as seen
through `astype(str)` (so a NaN cell is the non-empty string `nan`). -/
structure ValTable where
  hour : List (Option ℚ)
  visitors : List (Option ℚ)
  festival_flag : List (Option FVal)
  weather : List String
deriving Repr

/-- The violation categories accumulated in `validation_errors`, in the
order the code appends them (lines 94-158). -/
inductive Violation where
  | invalidHours
  | hourRange
  | invalidVisitors
  | negativeVisitors
  | invalidFestival
  | emptyWeather
deriving DecidableEq, Repr

/-- The range test of the hour column (line 107): a present hour outside
`[0, 23]`. -/
def hourRangeBad (h : Option ℚ) : Bool :=
  match h with
  | some v => decide (v < 0 ∨ 23 < v)
  | none => false

/-- The negativity test of the visitors column (line 127): a present
visitor count below zero. -/
def visitorNeg (v : Option ℚ) : Bool :=
  match v with
  | some x => decide (x < 0)
  | none => false

/-- The festival-flag test (line 141): a present cell outside the fixed
token set. -/
def festivalBad (c : Option FVal) : Bool :=
  match c with
  | some v => !(validFestivalToken v)
  | none => false

/-- The `validation_errors` list accumulated by `validate_data` over all
four columns before any exception is raised. -/
def violations (t : ValTable) : List Violation :=
  (if t.hour.any (fun h => h.isNone) then [Violation.invalidHours] else []) ++
  (if t.hour.any hourRangeBad then [Violation.hourRange] else []) ++
  (if t.visitors.any (fun v => v.isNone) then [Violation.invalidVisitors] else []) ++
  (if t.visitors.any visitorNeg then [Violation.negativeVisitors] else []) ++
  (if t.festival_flag.any festivalBad then [Violation.invalidFestival] else []) ++
  (if t.weather.any (fun w => w.trim = "") then [Violation.emptyWeather] else [])

/-- `DataProcessor.validate_data` (lines 78-166): collect every violation,
raise a single `DataValidationError` carrying the whole list when any was
found, and return `True` otherwise. -/
def validateData (t : ValTable) : Except (List Violation) Bool :=
  if violations t = [] then .ok true else .error (violations t)

theorem mem_ite_singleton {α : Type} (a b : α) (c : Prop) [Decidable c] :
    (a ∈ (if c then [b] else [])) ↔ (c ∧ a = b) := by
  split <;> simp_all

theorem any_hourRangeBad_iff (l : List (Option ℚ)) :
    (l.any hourRangeBad = true) ↔ ∃ v, some v ∈ l ∧ (v < 0 ∨ 23 < v) := by
  rw [List.any_eq_true]
  constructor
  · rintro ⟨h, hm, hp⟩
    cases h with
    | none => simp [hourRangeBad] at hp
    | some v => exact ⟨v, hm, by simpa [hourRangeBad] using hp⟩
  · rintro ⟨v, hm, hp⟩
    exact ⟨some v, hm, by simpa [hourRangeBad] using hp⟩

theorem any_visitorNeg_iff (l : List (Option ℚ)) :
    (l.any visitorNeg = true) ↔ ∃ x, some x ∈ l ∧ x < 0 := by
  rw [List.any_eq_true]
  constructor
  · rintro ⟨h, hm, hp⟩
    cases h with
    | none => simp [visitorNeg] at hp
    | some v => exact ⟨v, hm, by simpa [visitorNeg] using hp⟩
  · rintro ⟨v, hm, hp⟩
    exact ⟨some v, hm, by simpa [visitorNeg] using hp⟩

theorem any_festivalBad_iff (l : List (Option FVal)) :
    (l.any festivalBad = true) ↔
    ∃ v, some v ∈ l ∧ validFestivalToken v = false := by
  rw [List.any_eq_true]
  constructor
  · rintro ⟨h, hm, hp⟩
    cases h with
    | none => simp [festivalBad] at hp
    | some v => exact ⟨v, hm, by simpa [festivalBad] using hp⟩
  · rintro ⟨v, hm, hp⟩
    exact ⟨some v, hm, by simpa [festivalBad] using hp⟩

/-- C7. `validate_data` checks every required field, accumulates all
violations — a missing/unconvertible hour, an hour outside [0, 23], a
missing/unconvertible visitor count, a negative visitor count, a festival
flag outside the fixed truthy/falsy token set, an empty (whitespace-only)
weather string — and fails exactly once with the full violation list when
any is present; with no violation it returns success without raising. -/
theorem validate_data_spec (t : ValTable) :
    (validateData t = .ok true ↔ violations t = []) ∧
    (violations t ≠ [] → validateData t = .error (violations t)) ∧
    (Violation.invalidHours ∈ violations t ↔ ∃ h ∈ t.hour, h = none) ∧
    (Violation.hourRange ∈ violations t ↔
      ∃ v, some v ∈ t.hour ∧ (v < 0 ∨ 23 < v)) ∧
    (Violation.invalidVisitors ∈ violations t ↔ ∃ h ∈ t.visitors, h = none) ∧
    (Violation.negativeVisitors ∈ violations t ↔
      ∃ x, some x ∈ t.visitors ∧ x < 0) ∧
    (Violation.invalidFestival ∈ violations t ↔
      ∃ v, some v ∈ t.festival_flag ∧ validFestivalToken v = false) ∧
    (Violation.emptyWeather ∈ violations t ↔ ∃ w ∈ t.weather, w.trim = "") := by
  refine ⟨?_, ?_, ?_, ?_, ?_, ?_, ?_, ?_⟩
  · unfold validateData
    constructor
    · intro h
      by_cases hv : violations t = []
      · exact hv
      · rw [if_neg hv] at h; exact absurd h (by simp)
    · intro h
      rw [if_pos h]
  · intro h
    unfold validateData
    rw [if_neg h]
  · simp only [violations, List.mem_append, mem_ite_singleton]
    simp only [List.any_eq_true, Option.isNone_iff_eq_none]
    simp
  · simp only [violations, List.mem_append, mem_ite_singleton]
    rw [any_hourRangeBad_iff]
    simp
  · simp only [violations, List.mem_append, mem_ite_singleton]
    simp only [List.any_eq_true, Option.isNone_iff_eq_none]
    simp
  · simp only [violations, List.mem_append, mem_ite_singleton]
    rw [any_visitorNeg_iff]
    simp
  · simp only [violations, List.mem_append, mem_ite_singleton]
    rw [any_festivalBad_iff]
    simp
  · simp only [violations, List.mem_append, mem_ite_singleton]
    simp only [List.any_eq_true]
    simp

/-- A concrete malformed table: one missing hour, one negative visitor
count and one invalid festival token, all in the same frame. -/
def sampleValTable : ValTable :=
  { hour := [some 5, none]
    visitors := [some (-3), some 2]
    festival_flag := [some (.str "maybe")]
    weather := ["sunny"] }

/-- C7 witness: on the sample table the call fails once with the combined
list containing all three violations. -/
theorem validate_data_spec_witness :
    validateData sampleValTable = .error (violations sampleValTable) ∧
    Violation.invalidHours ∈ violations sampleValTable ∧
    Violation.negativeVisitors ∈ violations sampleValTable ∧
    Violation.invalidFestival ∈ violations sampleValTable := by
  have h := validate_data_spec sampleValTable
  have h1 : Violation.invalidHours ∈ violations sampleValTable :=
    h.2.2.1.mpr ⟨none, by simp [sampleValTable], rfl⟩
  refine ⟨h.2.1 ?_, h1, ?_, ?_⟩
  · intro hc
    rw [hc] at h1
    exact absurd h1 (by simp)
  · exact h.2.2.2.2.2.1.mpr ⟨-3, by simp [sampleValTable], by norm_num⟩
  · exact h.2.2.2.2.2.2.1.mpr ⟨.str "maybe", by simp [sampleValTable], by decide⟩

/-! ## Missing-value handling (data_processor.py, handle_missing_values)

One row per observation after preprocessing: `date` as a parsed timestamp
(`none` = NaT), `hour` and `visitors` as nullable numerics, `festival_flag`
as nullable boolean, `weather` as nullable string (empty string = a present
but empty cell). -/

/-- One row of the preprocessed frame entering `handle_missing_values`. -/
structure ImpRow where
  date : Option ℕ
  hour : Option ℚ
  visitors : Option ℚ
  festival : Option Bool
  weather : Option String
deriving DecidableEq, Repr

/-- `Series.mode()[0]`: the smallest value among those of maximal
multiplicity (pandas sorts the modes ascending and the code takes
`iloc[0]`); `none` when there are no values. -/
def modeBy {α : Type} [DecidableEq α] (lt : α → α → Bool) (xs : List α) : Option α :=
  xs.foldl (fun best c =>
    match best with
    | none => some c
    | some b =>
      if (xs.filter (fun x => x = b)).length < (xs.filter (fun x => x = c)).length
          ∨ ((xs.filter (fun x => x = c)).length = (xs.filter (fun x => x = b)).length
              ∧ lt c b = true)
      then some c else some b) none

/-- Mode of a numeric column. -/
def modeQ (xs : List ℚ) : Option ℚ := modeBy (fun a b => decide (a < b)) xs

/-- Mode of a string column. -/
def modeStr (xs : List String) : Option String :=
  modeBy (fun a b => decide (a < b)) xs

/-- `Series.median()` ignoring missing values: middle of the sorted values,
or the mean of the two middle values; `none` (NaN) when there are none. -/
def medianQ (xs : List ℚ) : Option ℚ :=
  let s := List.insertionSort (· ≤ ·) xs
  let n := s.length
  if n = 0 then none
  else if n % 2 = 1 then some (s.getD (n / 2) 0)
  else some ((s.getD (n / 2 - 1) 0 + s.getD (n / 2) 0) / 2)

/-- `fillna(method='ffill')` on the date column: each missing date takes
the closest preceding present date; leading missing dates stay missing. -/
def ffillDates : Option ℕ → List ImpRow → List ImpRow
  | _, [] => []
  | last, r :: rs =>
    match r.date with
    | some d => r :: ffillDates (some d) rs
    | none => { r with date := last } :: ffillDates last rs

/-- Date step of `handle_missing_values` (lines 310-320): drop the rows
with missing dates when their fraction exceeds 10%, forward-fill
otherwise. -/
def handleDates (t : List ImpRow) : List ImpRow :=
  if t.any (fun r => r.date.isNone) then
    if (((t.filter (fun r => r.date.isNone)).length : ℚ) / (t.length : ℚ)) > 1/10 then
      t.filter (fun r => r.date.isSome)
    else ffillDates none t
  else t

/-- Hour step (lines 323-335): fill missing hours with the mode of the
column, or with 12 when the mode is empty. -/
def handleHours (t : List ImpRow) : List ImpRow :=
  if t.any (fun r => r.hour.isNone) then
    let fill := match modeQ (t.filterMap (fun r => r.hour)) with
      | some m => m
      | none => 12
    t.map (fun r => { r with hour := some (r.hour.getD fill) })
  else t

/-- The exception escaping the visitors step. -/
inductive ImputeError where
  | timeInterpolationNeedsDatetimeIndex
deriving DecidableEq, Repr

/-- Visitors step (lines 338-352).  When any visitor count is missing and
the date column is not entirely missing, the code sorts by (date, hour)
and calls `visitors.interpolate(method='time')`; the frame still carries
its default integer index (`read_csv` and the preceding steps never set a
DatetimeIndex), and pandas rejects time-weighted interpolation on such an
index with `ValueError: time-weighted interpolation only works on Series
or DataFrames with a DatetimeIndex`, which `handle_missing_values` does
not catch.  Otherwise any remaining missing values are filled with the
median (a NaN median, from an all-missing column, fills nothing). -/
def handleVisitors (t : List ImpRow) : Except ImputeError (List ImpRow) :=
  if t.any (fun r => r.visitors.isNone) then
    if t.any (fun r => r.date.isSome) then
      .error .timeInterpolationNeedsDatetimeIndex
    else
      match medianQ (t.filterMap (fun r => r.visitors)) with
      | some m => .ok (t.map (fun r => { r with visitors := some (r.visitors.getD m) }))
      | none => .ok t
  else .ok t

/-- Festival step (lines 355-360): missing flags become `False`. -/
def handleFestival (t : List ImpRow) : List ImpRow :=
  if t.any (fun r => r.festival.isNone) then
    t.map (fun r => { r with festival := some (r.festival.getD false) })
  else t

/-- Weather step (lines 363-378): when any cell is missing or empty, fill
both with the column mode unless the smallest mode is the empty string, in
which case fill with the literal token `unknown`. -/
def handleWeather (t : List ImpRow) : List ImpRow :=
  if t.any (fun r => r.weather.isNone || decide (r.weather = some "")) then
    let fill := match modeStr (t.filterMap (fun r => r.weather)) with
      | some m => if m ≠ "" then m else "unknown"
      | none => "unknown"
    t.map (fun r =>
      match r.weather with
      | none => { r with weather := some fill }
      | some w => if w = "" then { r with weather := some fill } else r)
  else t

/-- `DataProcessor.handle_missing_values` (lines 296-388): the five
per-column steps in program order; an exception escaping the visitors step
aborts the call. -/
def handleMissingValues (t : List ImpRow) : Except ImputeError (List ImpRow) := do
  let t1 := handleDates t
  let t2 := handleHours t1
  let t3 ← handleVisitors t2
  let t4 := handleFestival t3
  pure (handleWeather t4)

/-- C3 failing input: a three-row table, middle visitor count missing, all
dates present.  The claim says the missing count is filled by time-ordered
interpolation (then median); the code instead raises pandas'
`ValueError` because `interpolate(method='time')` requires a
DatetimeIndex and the frame has its default integer index — the repo's own
integration test (`sample_data_with_issues`, which injects NaN visitor
counts and expects graceful handling) exercises exactly this path. -/
theorem handle_missing_values_raises :
    handleMissingValues
      [{ date := some 0, hour := some 1, visitors := some 5,
         festival := some false, weather := some "sunny" },
       { date := some 1, hour := some 2, visitors := none,
         festival := some false, weather := some "sunny" },
       { date := some 2, hour := some 3, visitors := some 7,
         festival := some false, weather := some "sunny" }] =
      .error .timeInterpolationNeedsDatetimeIndex := rfl

/-! ## Model manager training and future frames (prophet_model_manager.py)

The frame is abstracted to what the manager's control flow inspects: its
row count, its column names, and the distinct non-null weather categories
observed (cell-level regressor fills at lines 186-199 only alter values of
existing columns and are not modelled).  The external `Prophet.fit` call
can succeed or raise; its outcome is the `fitOk` oracle parameter. -/

/-- The frame view used by the manager. -/
structure MMFrame where
  nrows : ℕ
  cols : List String
  weatherCats : List String
deriving DecidableEq, Repr

/-- ASCII lowercasing of one character, as Python `str.lower` acts on the
ASCII column names of this pipeline. -/
def lowerChar (c : Char) : Char :=
  if 'A' ≤ c ∧ c ≤ 'Z' then Char.ofNat (c.toNat + 32) else c

/-- Python `str.lower()` on ASCII strings. -/
def lowerStr (s : String) : String := String.mk (s.toList.map lowerChar)

/-- One iteration of `encode_weather_data`'s category loop (lines
121-127): create the one-hot column `weather_<category lowercased>` and
auto-register it as a regressor with prior scale 5. -/
def encodeStep (p : List RegressorConfig × MMFrame) (c : String) :
    List RegressorConfig × MMFrame :=
  let colName := "weather_" ++ lowerStr c
  (addRegressor p.1 colName 5 true,
   { p.2 with cols := if colName ∈ p.2.cols then p.2.cols
                      else p.2.cols ++ [colName] })

/-- `ProphetModelManager.encode_weather_data` (lines 100-130): no-op
without a weather column, otherwise one-hot encode every observed
category. -/
def encodeWeatherData (regs : List RegressorConfig) (f : MMFrame) :
    List RegressorConfig × MMFrame :=
  if "weather" ∈ f.cols then f.weatherCats.foldl encodeStep (regs, f)
  else (regs, f)

/-- `ProphetModelManager.preprocess_regressors` (lines 164-202): register
`festival_flag` (prior scale 15) when present, then encode weather. -/
def preprocessRegressors (regs : List RegressorConfig) (f : MMFrame) :
    List RegressorConfig × MMFrame :=
  let regs1 := if "festival_flag" ∈ f.cols
    then addRegressor regs "festival_flag" 15 true else regs
  if "weather" ∈ f.cols then encodeWeatherData regs1 f else (regs1, f)

/-- `ProphetModelManager.validate_regressor_data` (lines 132-162): fails
only when a registered regressor column is absent from the frame (the
excessive-missing-data case merely logs a warning). -/
def validateRegressorData (regs : List RegressorConfig) (f : MMFrame) : Bool :=
  regs.all (fun rc => decide (rc.name ∈ f.cols))

/-- The manager's mutable state: the registered regressors and
`self.model` (`none` before any model object is created; `some true` after
a successful fit, `some false` when a created model's fit raised). -/
structure ManagerState where
  regressors : List RegressorConfig
  model : Option Bool
deriving DecidableEq, Repr

/-- `ProphetModelManager.__init__`: no regressors, `self.model = None`. -/
def initManager : ManagerState := { regressors := [], model := none }

/-- The `ValueError` variants raised by the manager. -/
inductive MMError where
  | insufficientData
  | regressorValidationFailed
  | trainingFailed
  | notTrained
deriving DecidableEq, Repr

/-- `ProphetModelManager.train_model` (lines 235-275).  Python exceptions
leave prior attribute mutations in place, so the call returns the
post-call state alongside the outcome.  Note line 263:
`self.model = self._create_model()` runs before the `try` around `fit`, so
the model attribute is set even when fitting then fails. -/
def trainModel (st : ManagerState) (f : MMFrame) (fitOk : Bool) :
    ManagerState × Except MMError Unit :=
  if f.nrows < 30 then (st, .error .insufficientData)
  else if validateRegressorData (preprocessRegressors st.regressors f).1
      (preprocessRegressors st.regressors f).2 = false then
    ({ st with regressors := (preprocessRegressors st.regressors f).1 },
     .error .regressorValidationFailed)
  else if fitOk then
    ({ regressors := (preprocessRegressors st.regressors f).1, model := some true },
     .ok ())
  else
    ({ regressors := (preprocessRegressors st.regressors f).1, model := some false },
     .error .trainingFailed)

/-- Python `in` on strings: substring containment, as a prefix check at
each suffix. -/
def prefixOfChars : List Char → List Char → Bool
  | [], _ => true
  | _ :: _, [] => false
  | a :: as, b :: bs => a == b && prefixOfChars as bs

/-- Substring search underlying `pyIn`. -/
def infixOfChars (t s : List Char) : Bool :=
  match s with
  | [] => t.isEmpty
  | _ :: s2 => prefixOfChars t s || infixOfChars t s2

/-- Python `t in s` on strings. -/
def pyIn (t s : String) : Bool := infixOfChars t.toList s.toList

/-- The name-heuristic default of `_fill_future_regressors` (lines
388-400): names containing `festival` get 0; otherwise names containing
`weather` get 1 exactly when they also contain `sunny`, else 0; all other
names get 0.  The checks run on the lowercased name. -/
def defaultFill (name : String) : ℤ :=
  if pyIn "festival" (lowerStr name) then 0
  else if pyIn "weather" (lowerStr name) then
    (if pyIn "sunny" (lowerStr name) then 1 else 0)
  else 0

/-- One iteration of `_fill_future_regressors`' loop (lines 385-402): add
the registered column with its name-based default unless the future frame
already has it.  The future frame is an association list from column name
to the broadcast fill value. -/
def fillStep (df : List (String × ℤ)) (rc : RegressorConfig) :
    List (String × ℤ) :=
  if (df.lookup rc.name).isSome then df
  else df ++ [(rc.name, defaultFill rc.name)]

/-- `ProphetModelManager._fill_future_regressors` (lines 375-404). -/
def fillFutureRegressors (regs : List RegressorConfig)
    (df : List (String × ℤ)) : List (String × ℤ) :=
  regs.foldl fillStep df

/-- `ProphetModelManager.generate_future_dataframe` (lines 277-308) with
no explicit future regressor values: guard on an existing model, then the
Prophet-made future frame (a bare `ds` column) is completed by
`_fill_future_regressors`. -/
def generateFutureDataframe (st : ManagerState) (periods : ℕ) :
    Except MMError (List (String × ℤ)) :=
  if st.model.isNone then .error .notTrained
  else .ok (fillFutureRegressors st.regressors [("ds", (periods : ℤ))])

/-- `ProphetModelManager.make_predictions` (lines 310-347) at state level:
guard on an existing model, then clip the raw forecast. -/
def makePredictionsGuard (st : ManagerState) (raw : List RawForecastRow) :
    Except MMError (List ForecastRow) :=
  if st.model.isNone then .error .notTrained
  else .ok (makePredictions raw)

/-! ## Theorems for training and the trained-state guard -/

theorem mem_addRegressor (regs : List RegressorConfig) (n : String) (p : ℚ)
    (s : Bool) (rc : RegressorConfig) (h : rc ∈ addRegressor regs n p s) :
    rc ∈ regs ∨ rc = ⟨n, p, s⟩ := by
  unfold addRegressor at h
  split at h
  · exact Or.inl h
  · rcases List.mem_append.mp h with h1 | h2
    · exact Or.inl h1
    · exact Or.inr (by simpa using h2)

theorem encodeStep_inv (p : List RegressorConfig × MMFrame) (c : String)
    (h : ∀ rc ∈ p.1, rc.name ∈ p.2.cols) :
    ∀ rc ∈ (encodeStep p c).1, rc.name ∈ (encodeStep p c).2.cols := by
  intro rc hrc
  simp only [encodeStep] at hrc ⊢
  have hsub : p.2.cols ⊆ (if ("weather_" ++ lowerStr c) ∈ p.2.cols then p.2.cols
      else p.2.cols ++ [("weather_" ++ lowerStr c)]) := by
    split
    · exact fun x hx => hx
    · exact List.subset_append_left _ _
  rcases mem_addRegressor _ _ _ _ rc hrc with hin | rfl
  · exact hsub (h rc hin)
  · split
    · assumption
    · simp

theorem foldl_encodeStep_inv (cats : List String) :
    ∀ p : List RegressorConfig × MMFrame, (∀ rc ∈ p.1, rc.name ∈ p.2.cols) →
      ∀ rc ∈ (cats.foldl encodeStep p).1,
        rc.name ∈ (cats.foldl encodeStep p).2.cols := by
  induction cats with
  | nil => intro p h; exact h
  | cons c cats ih =>
    intro p h
    exact ih (encodeStep p c) (encodeStep_inv p c h)

theorem preprocess_inv (regs : List RegressorConfig) (f : MMFrame)
    (h : ∀ rc ∈ regs, rc.name ∈ f.cols) :
    ∀ rc ∈ (preprocessRegressors regs f).1,
      rc.name ∈ (preprocessRegressors regs f).2.cols := by
  have hbase : ∀ rc ∈ (if "festival_flag" ∈ f.cols
      then addRegressor regs "festival_flag" 15 true else regs),
      rc.name ∈ f.cols := by
    intro rc hrc
    by_cases hff : "festival_flag" ∈ f.cols
    · rw [if_pos hff] at hrc
      rcases mem_addRegressor _ _ _ _ rc hrc with hin | rfl
      · exact h rc hin
      · exact hff
    · rw [if_neg hff] at hrc
      exact h rc hrc
  unfold preprocessRegressors
  by_cases hw : "weather" ∈ f.cols
  · rw [if_pos hw]
    unfold encodeWeatherData
    rw [if_pos hw]
    exact foldl_encodeStep_inv f.weatherCats _ hbase
  · rw [if_neg hw]
    exact hbase

theorem validate_of_inv (regs : List RegressorConfig) (f : MMFrame)
    (h : ∀ rc ∈ regs, rc.name ∈ f.cols) :
    validateRegressorData regs f = true := by
  unfold validateRegressorData
  rw [List.all_eq_true]
  intro rc hrc
  simpa using h rc hrc

/-- C4. `train_model` raises the insufficient-data error (before touching
regressors or the model) exactly when fewer than 30 rows are supplied; on
a 30-row frame whose columns cover every pre-registered regressor, the
call passes regressor validation (the festival and weather regressors it
auto-registers come with their own columns) and, with the external fit
succeeding, returns successfully. -/
theorem train_model_spec (st : ManagerState) (f : MMFrame) (fitOk : Bool) :
    (f.nrows < 30 → trainModel st f fitOk = (st, .error .insufficientData)) ∧
    (f.nrows = 30 → (∀ rc ∈ st.regressors, rc.name ∈ f.cols) → fitOk = true →
      (trainModel st f fitOk).2 = .ok ()) := by
  constructor
  · intro h
    unfold trainModel
    rw [if_pos h]
  · intro h30 hregs hfit
    subst hfit
    unfold trainModel
    rw [if_neg (by omega)]
    have hval := validate_of_inv _ _ (preprocess_inv st.regressors f hregs)
    rw [if_neg (by rw [hval]; simp)]
    rw [if_pos rfl]

/-- A 29-row frame with all pipeline columns. -/
def frame29 : MMFrame :=
  { nrows := 29
    cols := ["date", "hour", "visitors", "festival_flag", "weather"]
    weatherCats := ["sunny"] }

/-- A 30-row frame with all pipeline columns and two weather categories. -/
def frame30 : MMFrame :=
  { nrows := 30
    cols := ["date", "hour", "visitors", "festival_flag", "weather"]
    weatherCats := ["sunny", "rainy"] }

/-- C4 witness: training a fresh manager fails on 29 rows and succeeds on
30 valid rows. -/
theorem train_model_spec_witness :
    trainModel initManager frame29 true = (initManager, .error .insufficientData) ∧
    (trainModel initManager frame30 true).2 = .ok () := by
  refine ⟨(train_model_spec initManager frame29 true).1 (by decide), ?_⟩
  exact (train_model_spec initManager frame30 true).2 rfl (by simp [initManager]) rfl

/-- C5 (amended). `build_future_frame` and `predict` fail with
`NotTrainedError` exactly when the manager's model attribute is unset,
which holds for a fresh manager and stops holding once a `train` call has
progressed past the row-count and regressor checks — even when the
subsequent fit fails, because the model object is installed before the fit
is attempted.  A successful train marks the model fitted, and a train
rejected by those early checks leaves the model attribute unchanged. -/
theorem not_trained_guard (st : ManagerState) (raw : List RawForecastRow)
    (periods : ℕ) (f : MMFrame) (fitOk : Bool) :
    (st.model = none →
      makePredictionsGuard st raw = .error .notTrained ∧
      generateFutureDataframe st periods = .error .notTrained) ∧
    (st.model ≠ none →
      makePredictionsGuard st raw = .ok (makePredictions raw) ∧
      generateFutureDataframe st periods =
        .ok (fillFutureRegressors st.regressors [("ds", (periods : ℤ))])) ∧
    initManager.model = none ∧
    ((trainModel st f fitOk).2 = .ok () →
      (trainModel st f fitOk).1.model = some true) ∧
    ((trainModel st f fitOk).2 = .error .insufficientData ∨
        (trainModel st f fitOk).2 = .error .regressorValidationFailed →
      (trainModel st f fitOk).1.model = st.model) := by
  refine ⟨?_, ?_, rfl, ?_, ?_⟩
  · intro h
    unfold makePredictionsGuard generateFutureDataframe
    rw [h]
    exact ⟨rfl, rfl⟩
  · intro h
    have hm : st.model.isNone = false := by
      cases hm : st.model
      · exact absurd hm h
      · rfl
    unfold makePredictionsGuard generateFutureDataframe
    rw [hm]
    exact ⟨rfl, rfl⟩
  · intro h
    unfold trainModel at h ⊢
    by_cases h1 : f.nrows < 30
    · rw [if_pos h1] at h
      exact absurd h (by simp)
    · rw [if_neg h1] at h ⊢
      by_cases h2 : validateRegressorData (preprocessRegressors st.regressors f).1
          (preprocessRegressors st.regressors f).2 = false
      · rw [if_pos h2] at h
        exact absurd h (by simp)
      · rw [if_neg h2] at h ⊢
        by_cases h3 : fitOk = true
        · rw [if_pos h3]
        · rw [if_neg h3] at h
          exact absurd h (by simp)
  · intro h
    unfold trainModel at h ⊢
    by_cases h1 : f.nrows < 30
    · rw [if_pos h1]
    · rw [if_neg h1] at h ⊢
      by_cases h2 : validateRegressorData (preprocessRegressors st.regressors f).1
          (preprocessRegressors st.regressors f).2 = false
      · rw [if_pos h2]
      · rw [if_neg h2] at h ⊢
        by_cases h3 : fitOk = true
        · rw [if_pos h3] at h
          rcases h with h | h <;> exact absurd h (by simp)
        · rw [if_neg h3] at h
          rcases h with h | h <;> exact absurd h (by simp)

/-- A 30-row frame carrying no regressor source columns. -/
def frameNoRegressors : MMFrame :=
  { nrows := 30, cols := ["date", "hour", "visitors"], weatherCats := [] }

/-- C5 witness: on a fresh manager both operations fail with
`NotTrainedError`. -/
theorem not_trained_guard_witness :
    makePredictionsGuard initManager [] = .error .notTrained ∧
    generateFutureDataframe initManager 24 = .error .notTrained :=
  (not_trained_guard initManager [] 24 frameNoRegressors true).1 rfl

/-- C5 counterexample: a train call on 30 rows whose external fit raises
has made no successful train call, yet a subsequent `predict` does not
fail with `NotTrainedError` — it proceeds, because `self.model` was
assigned before the fit attempt.  This refutes the claim that the guard
fires whenever no successful train call has happened. -/
theorem not_trained_counterexample :
    (trainModel initManager frameNoRegressors false).2 = .error .trainingFailed ∧
    makePredictionsGuard (trainModel initManager frameNoRegressors false).1 [] =
      .ok [] :=
  ⟨rfl, rfl⟩

/-! ## Theorems for future-regressor filling -/

theorem lookup_append_left {β : Type} (name : String) (df l : List (String × β))
    (h : (df.lookup name).isSome = true) :
    (df ++ l).lookup name = df.lookup name := by
  induction df with
  | nil => simp at h
  | cons a df ih =>
    cases a with
    | mk k v =>
      simp only [List.cons_append, List.lookup_cons] at h ⊢
      by_cases hk : name = k
      · simp [hk]
      · rw [beq_false_of_ne hk] at h ⊢
        exact ih h

theorem lookup_append_none {β : Type} (name : String) (df l : List (String × β))
    (h : df.lookup name = none) : (df ++ l).lookup name = l.lookup name := by
  induction df with
  | nil => simp
  | cons a df ih =>
    cases a with
    | mk k v =>
      simp only [List.cons_append, List.lookup_cons] at h ⊢
      by_cases hk : name = k
      · rw [hk, beq_self_eq_true] at h
        simp at h
      · rw [beq_false_of_ne hk] at h ⊢
        exact ih h

theorem lookup_fillStep_some (df : List (String × ℤ)) (rc : RegressorConfig)
    (name : String) (h : (df.lookup name).isSome = true) :
    (fillStep df rc).lookup name = df.lookup name := by
  unfold fillStep
  split
  · rfl
  · exact lookup_append_left name df _ h

theorem foldl_fillStep_some (regs : List RegressorConfig) :
    ∀ df : List (String × ℤ), ∀ name : String,
      (df.lookup name).isSome = true →
      (regs.foldl fillStep df).lookup name = df.lookup name := by
  induction regs with
  | nil => intro df name _; rfl
  | cons rc regs ih =>
    intro df name h
    have hkeep := lookup_fillStep_some df rc name h
    have hsome : ((fillStep df rc).lookup name).isSome = true := by
      rw [hkeep]; exact h
    calc ((rc :: regs).foldl fillStep df).lookup name
        = (regs.foldl fillStep (fillStep df rc)).lookup name := rfl
      _ = (fillStep df rc).lookup name := ih (fillStep df rc) name hsome
      _ = df.lookup name := hkeep

theorem lookup_singleton_self {β : Type} (k : String) (v : β) :
    ([(k, v)] : List (String × β)).lookup k = some v := by
  simp [List.lookup_cons]

theorem foldl_fillStep_registered (regs : List RegressorConfig) :
    ∀ df : List (String × ℤ), ∀ rc ∈ regs, df.lookup rc.name = none →
      (regs.foldl fillStep df).lookup rc.name = some (defaultFill rc.name) := by
  induction regs with
  | nil => intro df rc h; simp at h
  | cons a regs ih =>
    intro df rc hrc hnone
    rcases List.mem_cons.mp hrc with rfl | hmem
    · have hstep : (fillStep df rc).lookup rc.name = some (defaultFill rc.name) := by
        unfold fillStep
        rw [if_neg (by rw [hnone]; simp)]
        rw [lookup_append_none rc.name df _ hnone]
        exact lookup_singleton_self _ _
      have hsome : ((fillStep df rc).lookup rc.name).isSome = true := by
        rw [hstep]; rfl
      calc ((rc :: regs).foldl fillStep df).lookup rc.name
          = (regs.foldl fillStep (fillStep df rc)).lookup rc.name := rfl
        _ = (fillStep df rc).lookup rc.name :=
            foldl_fillStep_some regs (fillStep df rc) rc.name hsome
        _ = some (defaultFill rc.name) := hstep
    · by_cases hname : a.name = rc.name
      · have hstep : (fillStep df a).lookup rc.name = some (defaultFill rc.name) := by
          unfold fillStep
          rw [hname]
          rw [if_neg (by rw [hnone]; simp)]
          rw [lookup_append_none rc.name df _ hnone]
          exact lookup_singleton_self _ _
        have hsome : ((fillStep df a).lookup rc.name).isSome = true := by
          rw [hstep]; rfl
        calc ((a :: regs).foldl fillStep df).lookup rc.name
            = (regs.foldl fillStep (fillStep df a)).lookup rc.name := rfl
          _ = (fillStep df a).lookup rc.name :=
              foldl_fillStep_some regs (fillStep df a) rc.name hsome
          _ = some (defaultFill rc.name) := hstep
      · have hstep : (fillStep df a).lookup rc.name = none := by
          unfold fillStep
          split
          · exact hnone
          · rw [lookup_append_none rc.name df _ hnone]
            simp [List.lookup_cons, beq_false_of_ne (fun hc => hname hc.symm)]
        exact ih (fillStep df a) rc hmem hstep

theorem foldl_fillStep_unregistered (regs : List RegressorConfig) :
    ∀ df : List (String × ℤ), ∀ name : String, df.lookup name = none →
      (∀ rc ∈ regs, rc.name ≠ name) →
      (regs.foldl fillStep df).lookup name = none := by
  induction regs with
  | nil => intro df name h _; exact h
  | cons a regs ih =>
    intro df name hnone hne
    have hstep : (fillStep df a).lookup name = none := by
      unfold fillStep
      split
      · exact hnone
      · rw [lookup_append_none name df _ hnone]
        simp [List.lookup_cons,
          beq_false_of_ne (fun hc => hne a (List.mem_cons_self a regs) hc.symm)]
    exact ih (fillStep df a) name hstep
      (fun rc hrc => hne rc (List.mem_cons_of_mem a hrc))

/-- C9. With no explicit future regressor values, `_fill_future_regressors`
adds exactly the registered regressor columns missing from the future
frame: existing columns keep their values, each missing registered column
gets its name-based default — 0 for names containing `festival`, and for
the remaining weather-derived names 1 exactly when the name contains
`sunny` and 0 otherwise, 0 for everything else — and a column name never
registered during training is not created, the call returning normally
regardless. -/
theorem fill_future_regressors_spec (regs : List RegressorConfig)
    (df : List (String × ℤ)) :
    (∀ name : String, (df.lookup name).isSome = true →
      (fillFutureRegressors regs df).lookup name = df.lookup name) ∧
    (∀ rc ∈ regs, df.lookup rc.name = none →
      (fillFutureRegressors regs df).lookup rc.name = some (defaultFill rc.name)) ∧
    (∀ name : String, df.lookup name = none → (∀ rc ∈ regs, rc.name ≠ name) →
      (fillFutureRegressors regs df).lookup name = none) ∧
    (∀ name : String, pyIn "festival" (lowerStr name) = true → defaultFill name = 0) ∧
    (∀ name : String, pyIn "festival" (lowerStr name) = false →
      pyIn "weather" (lowerStr name) = true → pyIn "sunny" (lowerStr name) = true →
      defaultFill name = 1) ∧
    (∀ name : String, pyIn "festival" (lowerStr name) = false →
      pyIn "weather" (lowerStr name) = true → pyIn "sunny" (lowerStr name) = false →
      defaultFill name = 0) ∧
    (∀ name : String, pyIn "festival" (lowerStr name) = false →
      pyIn "weather" (lowerStr name) = false → defaultFill name = 0) := by
  refine ⟨?_, ?_, ?_, ?_, ?_, ?_, ?_⟩
  · intro name h
    exact foldl_fillStep_some regs df name h
  · intro rc hrc h
    exact foldl_fillStep_registered regs df rc hrc h
  · intro name h1 h2
    exact foldl_fillStep_unregistered regs df name h1 h2
  · intro name h
    unfold defaultFill
    rw [if_pos h]
  · intro name h1 h2 h3
    unfold defaultFill
    rw [if_neg (by rw [h1]; simp), if_pos h2, if_pos h3]
  · intro name h1 h2 h3
    unfold defaultFill
    rw [if_neg (by rw [h1]; simp), if_pos h2, if_neg (by rw [h3]; simp)]
  · intro name h1 h2
    unfold defaultFill
    rw [if_neg (by rw [h1]; simp), if_neg (by rw [h2]; simp)]

/-- The regressors registered by a training run over festival data and the
weather categories sunny and rainy. -/
def sampleRegs : List RegressorConfig :=
  [⟨"festival_flag", 15, true⟩, ⟨"weather_sunny", 5, true⟩,
   ⟨"weather_rainy", 5, true⟩]

/-- C9 witness: on a future frame holding only the `ds` column, the
festival column is filled with 0, the sunny column with 1, the rainy
column with 0, the `ds` column is untouched, and a never-registered
category column (`weather_fog`) is not created. -/
theorem fill_future_regressors_spec_witness :
    (fillFutureRegressors sampleRegs [("ds", 24)]).lookup "festival_flag" = some 0 ∧
    (fillFutureRegressors sampleRegs [("ds", 24)]).lookup "weather_sunny" = some 1 ∧
    (fillFutureRegressors sampleRegs [("ds", 24)]).lookup "weather_rainy" = some 0 ∧
    (fillFutureRegressors sampleRegs [("ds", 24)]).lookup "ds" = some 24 ∧
    (fillFutureRegressors sampleRegs [("ds", 24)]).lookup "weather_fog" = none := by
  have h := fill_future_regressors_spec sampleRegs [("ds", 24)]
  refine ⟨?_, ?_, ?_, ?_, ?_⟩
  · have := h.2.1 ⟨"festival_flag", 15, true⟩ (by simp [sampleRegs]) (by decide)
    rw [this]
    rw [h.2.2.2.1 "festival_flag" (by decide)]
  · have := h.2.1 ⟨"weather_sunny", 5, true⟩ (by simp [sampleRegs]) (by decide)
    rw [this]
    rw [h.2.2.2.2.1 "weather_sunny" (by decide) (by decide) (by decide)]
  · have := h.2.1 ⟨"weather_rainy", 5, true⟩ (by simp [sampleRegs]) (by decide)
    rw [this]
    rw [h.2.2.2.2.2.1 "weather_rainy" (by decide) (by decide) (by decide)]
  · have := h.1 "ds" (by decide)
    rw [this]
    decide
  · exact h.2.2.1 "weather_fog" (by decide) (by decide)
